import Mathlib

/-!
# dropzone: the MIME message encoder of `main.go`

A shallow embedding of the four pure functions of `main.go`

* `createMessage` (lines 77-90),
* `chunkSplit` (lines 92-123),
* `randStr` (lines 125-147),
* `createMessageWithAttachment` (lines 149-194),

together with the parts of the Go language and standard library they rest on
(strings as byte sequences, `range` over a string, `string([]rune)`,
`encoding/base64`), followed by the theorems about them.

Conventions.
* A Go `string` and a `[]byte` are both a `List Byte`, a byte being a `Fin 256`.
* A Go `rune` is a natural number (the code point); the runes produced by
  `range` are never negative.
* A function that can panic, exit the process, or loop returns an `Outcome`.
* The collaborators that are not part of the program text (the file system, the
  entropy source behind `crypto/rand`, `http.DetectContentType`) are explicit
  parameters.
-/

namespace Dropzone

set_option maxRecDepth 1000000

/-! ## Data model -/

/-- One byte. -/
abbrev Byte := Fin 256

/-- Go `string` (and `[]byte`): a sequence of bytes. -/
abbrev GoString := List Byte

/-- Go `rune`: a Unicode code point. -/
abbrev Rune := Nat

/-- The bytes of a source literal. Every literal of `main.go` is ASCII, so the
byte of each character is its code point. -/
def str (s : String) : GoString := s.toList.map (fun c => Fin.ofNat c.toNat)

/-- Kinds of run-time panic the encoder functions can raise. -/
inductive Panic where
  /-- Go reports "slice bounds out of range". -/
  | sliceBounds
  /-- Go reports "integer divide by zero". -/
  | divideByZero
  /-- Go reports "index out of range". -/
  | indexRange
  /-- Go reports "makeslice: len out of range". -/
  | makeSliceLen
  deriving DecidableEq, Repr

/-- How a call ends. -/
inductive Outcome (α : Type) where
  /-- The call returned a value. -/
  | ok (a : α)
  /-- The call stopped with a run-time panic. -/
  | panic (why : Panic)
  /-- The call ended the process through `log.Fatalf`. -/
  | fatal
  /-- The loop was still running when the step budget ran out. -/
  | outOfFuel
  deriving DecidableEq, Repr

/-- Sequencing of calls: the first failure is the failure of the whole. -/
def Outcome.bind {α β : Type} (x : Outcome α) (f : α → Outcome β) : Outcome β :=
  match x with
  | .ok a => f a
  | .panic why => .panic why
  | .fatal => .fatal
  | .outOfFuel => .outOfFuel

/-- The `gmail.Message` value the encoders fill in: only `Raw` is ever set. -/
structure Message where
  /-- The base64 text of the whole message. -/
  Raw : GoString
  deriving DecidableEq, Repr

/-! ## `encoding/base64` (RFC 4648) -/

/-- A base64 encoding: the 64-character alphabet and the padding character
(`base64.Encoding`, fields `encode` and `padChar`). -/
structure Encoding where
  /-- The alphabet, indexed by 6-bit value. -/
  encode : GoString
  /-- The padding character. -/
  padChar : Byte

/-- The standard alphabet of `encoding/base64`. -/
def encodeStd : GoString :=
  str "ABCDEFGHIJKLMNOPQRSTUVWXYZabcdefghijklmnopqrstuvwxyz0123456789+/"

/-- The URL-safe alphabet of `encoding/base64`. -/
def encodeURL : GoString :=
  str "ABCDEFGHIJKLMNOPQRSTUVWXYZabcdefghijklmnopqrstuvwxyz0123456789-_"

/-- The padding character `=`. -/
def StdPadding : Byte := 61

/-- Go `base64.StdEncoding`. -/
def StdEncoding : Encoding := ⟨encodeStd, StdPadding⟩

/-- Go `base64.URLEncoding`. -/
def URLEncoding : Encoding := ⟨encodeURL, StdPadding⟩

/-- The alphabet character of a 6-bit value: `enc.encode[i&0x3F]`. -/
def Encoding.sym (enc : Encoding) (i : Nat) : Byte := enc.encode.getD (i % 64) 0

/-- Go `(*Encoding).EncodeToString`: every three bytes become the four
characters of their 24-bit value `b0<<16 | b1<<8 | b2` (`val>>18&0x3F`,
`val>>12&0x3F`, `val>>6&0x3F`, `val&0x3F`); a remainder of two or one bytes
becomes three or two characters followed by padding. -/
def Encoding.EncodeToString (enc : Encoding) : List Byte → GoString
  | b0 :: b1 :: b2 :: rest =>
    let val := b0.val * 65536 + b1.val * 256 + b2.val
    enc.sym (val / 262144) :: enc.sym (val / 4096) :: enc.sym (val / 64) :: enc.sym val ::
      enc.EncodeToString rest
  | [b0, b1] =>
    let val := b0.val * 65536 + b1.val * 256
    [enc.sym (val / 262144), enc.sym (val / 4096), enc.sym (val / 64), enc.padChar]
  | [b0] =>
    let val := b0.val * 65536
    [enc.sym (val / 262144), enc.sym (val / 4096), enc.padChar, enc.padChar]
  | [] => []

/-- The 6-bit value of an alphabet character, `none` for any other byte
(the `decodeMap` table of `base64.Encoding`). -/
def Encoding.decodeMap (enc : Encoding) (c : Byte) : Option Nat :=
  let i := enc.encode.indexOf c
  if i < 64 then some i else none

/-- Decoding of padded base64 text (RFC 4648, section 4): the text is read four
characters at a time; padding may only close the last group; any byte outside
the alphabet, and any length that is not a multiple of four, is rejected. -/
def Encoding.DecodeString (enc : Encoding) : GoString → Option (List Byte)
  | [] => some []
  | c0 :: c1 :: c2 :: c3 :: rest =>
    if c3 = enc.padChar then
      if rest ≠ [] then none
      else if c2 = enc.padChar then
        match enc.decodeMap c0, enc.decodeMap c1 with
        | some d0, some d1 => some [Fin.ofNat ((d0 * 64 + d1) / 16)]
        | _, _ => none
      else
        match enc.decodeMap c0, enc.decodeMap c1, enc.decodeMap c2 with
        | some d0, some d1, some d2 =>
          let val := d0 * 4096 + d1 * 64 + d2
          some [Fin.ofNat (val / 1024), Fin.ofNat (val / 4)]
        | _, _, _ => none
    else
      match enc.decodeMap c0, enc.decodeMap c1, enc.decodeMap c2, enc.decodeMap c3,
          enc.DecodeString rest with
      | some d0, some d1, some d2, some d3, some out =>
        let val := d0 * 262144 + d1 * 4096 + d2 * 64 + d3
        some (Fin.ofNat (val / 65536) :: Fin.ofNat (val / 256) :: Fin.ofNat val :: out)
      | _, _, _, _, _ => none
  | _ => none

/-- An encoding is usable when its alphabet has 64 characters that decode to
their own index and none of them is the padding character. -/
def Encoding.Valid (enc : Encoding) : Prop :=
  (∀ i : Fin 64, enc.decodeMap (enc.sym i.val) = some i.val) ∧
  (∀ i : Fin 64, enc.sym i.val ≠ enc.padChar) ∧
  (∀ i : Fin 64, enc.sym i.val ∈ enc.encode)

instance Encoding.decidableValid (enc : Encoding) : Decidable enc.Valid := by
  unfold Encoding.Valid; infer_instance

/-! ## `createMessage` (main.go, lines 77-90) -/

/-- The byte sequence `messageBody` that `createMessage` assembles. -/
def plainMessageBody (from_ to_ subject content : GoString) : List Byte :=
  str "From: " ++ from_ ++ str "\r\n" ++
    str "To: " ++ to_ ++ str "\r\n" ++
    str "Subject: " ++ subject ++ str "\r\n\r\n" ++
    content

/-- Go `createMessage`: the header block and the content, in standard base64. -/
def createMessage (from_ to_ subject content : GoString) : Message :=
  ⟨StdEncoding.EncodeToString (plainMessageBody from_ to_ subject content)⟩

/-! ## Runes: `range` over a string and `string([]rune)` -/

/-- The replacement character U+FFFD that stands for an invalid encoding. -/
def RuneError : Rune := 0xFFFD

/-- A continuation byte, `0x80 ≤ b ≤ 0xBF`. -/
def isCont (b : Byte) : Bool := 0x80 ≤ b.val && b.val ≤ 0xBF

/-- The rune at the start of a non-empty string and the number of bytes it
takes (Go runtime `decoderune`, behind `for _, char := range body`): an ASCII
byte is itself; a well-formed two, three or four byte sequence is its code
point; anything else (a stray or truncated sequence, an overlong form, a
surrogate, a value above U+10FFFF) is `RuneError` and takes one byte. -/
def decodeRune (s : GoString) : Rune × Nat :=
  match s with
  | [] => (RuneError, 1)
  | b0 :: rest =>
    if b0.val < 0x80 then (b0.val, 1)
    else if 0xC0 ≤ b0.val ∧ b0.val < 0xE0 then
      match rest with
      | b1 :: _ =>
        let r := b0.val % 32 * 64 + b1.val % 64
        if isCont b1 ∧ 0x7F < r then (r, 2) else (RuneError, 1)
      | _ => (RuneError, 1)
    else if 0xE0 ≤ b0.val ∧ b0.val < 0xF0 then
      match rest with
      | b1 :: b2 :: _ =>
        let r := b0.val % 16 * 4096 + b1.val % 64 * 64 + b2.val % 64
        if isCont b1 ∧ isCont b2 ∧ 0x7FF < r ∧ ¬ (0xD800 ≤ r ∧ r ≤ 0xDFFF) then (r, 3)
        else (RuneError, 1)
      | _ => (RuneError, 1)
    else if 0xF0 ≤ b0.val ∧ b0.val < 0xF8 then
      match rest with
      | b1 :: b2 :: b3 :: _ =>
        let r := b0.val % 8 * 262144 + b1.val % 64 * 4096 + b2.val % 64 * 64 + b3.val % 64
        if isCont b1 ∧ isCont b2 ∧ isCont b3 ∧ 0xFFFF < r ∧ r ≤ 0x10FFFF then (r, 4)
        else (RuneError, 1)
      | _ => (RuneError, 1)
    else (RuneError, 1)

/-- The runes of a string, read front to back; every step takes at least one
byte, so a budget of one step per byte always reaches the end. -/
def rangeRunes : Nat → GoString → List Rune
  | 0, _ => []
  | fuel + 1, s =>
    if s = [] then []
    else (decodeRune s).1 :: rangeRunes fuel (s.drop (decodeRune s).2)

/-- The rune slice that `for _, char := range body { charSlice = append(charSlice, char) }`
builds. -/
def runesOf (body : GoString) : List Rune := rangeRunes body.length body

/-- The UTF-8 bytes of one rune (Go runtime `encoderune`); a surrogate or a
value above U+10FFFF is written as U+FFFD. -/
def encodeRune (r : Nat) : GoString :=
  if r ≤ 0x7F then [Fin.ofNat r]
  else if r ≤ 0x7FF then [Fin.ofNat (0xC0 + r / 64), Fin.ofNat (0x80 + r % 64)]
  else if 0x10FFFF < r ∨ (0xD800 ≤ r ∧ r ≤ 0xDFFF) then [0xEF, 0xBF, 0xBD]
  else if r ≤ 0xFFFF then
    [Fin.ofNat (0xE0 + r / 4096), Fin.ofNat (0x80 + r / 64 % 64), Fin.ofNat (0x80 + r % 64)]
  else
    [Fin.ofNat (0xF0 + r / 262144), Fin.ofNat (0x80 + r / 4096 % 64),
      Fin.ofNat (0x80 + r / 64 % 64), Fin.ofNat (0x80 + r % 64)]

/-- Go `string(runes)` for a rune slice. -/
def stringOfRunes (runes : List Rune) : GoString := runes.flatMap encodeRune

/-! ## `chunkSplit` (main.go, lines 92-123) -/

/-- The loop of `chunkSplit` (lines 103-119), one iteration per unit of `fuel`.

`charSlice[:limit]` needs `0 ≤ limit ≤ cap(charSlice)` and `charSlice[limit:]`
needs `0 ≤ limit ≤ len(charSlice)`; as `len ≤ cap` and nothing observable
happens between the two slice expressions, an iteration panics exactly when
`limit < 0` or `len(charSlice) < limit`. -/
def chunkSplitLoop (end_ : GoString) :
    Nat → List Rune → Int → GoString → Outcome GoString
  | 0, _, _, _ => .outOfFuel
  | fuel + 1, charSlice, limit, result =>
    if charSlice.length ≥ 1 then
      if limit < 0 ∨ (charSlice.length : Int) < limit then .panic .sliceBounds
      else
        let result := result ++ stringOfRunes (charSlice.take limit.toNat) ++ end_
        let charSlice := charSlice.drop limit.toNat
        let limit := if (charSlice.length : Int) < limit then (charSlice.length : Int) else limit
        chunkSplitLoop end_ fuel charSlice limit result
    else .ok result

/-- Go `chunkSplit`, run for one more step than the body has runes: enough for
every call whose loop ends (see `chunkSplitLoop_fuel`). -/
def chunkSplit (body : GoString) (limit : Int) (end_ : GoString) : Outcome GoString :=
  chunkSplitLoop end_ ((runesOf body).length + 1) (runesOf body) limit []

/-! ## `randStr` (main.go, lines 125-147) -/

/-- The dictionary `randStr` selects (lines 127-139): three independent `if`
statements over an initially empty string. -/
def dictionaryOf (randType : GoString) : GoString :=
  let dictionary : GoString := []
  let dictionary :=
    if randType = str "alphanum" then
      str "0123456789ABCDEFGHIJKLMNOPQRSTUVWXYZabcdefghijklmnopqrstuvwxyz"
    else dictionary
  let dictionary :=
    if randType = str "alpha" then
      str "ABCDEFGHIJKLMNOPQRSTUVWXYZabcdefghijklmnopqrstuvwxyz"
    else dictionary
  let dictionary :=
    if randType = str "number" then str "0123456789" else dictionary
  dictionary

/-- The buffer after `make([]byte, strSize)` and `rand.Read(bytes)`: the bytes
the entropy source delivered, and zero wherever it delivered none (the error
of `rand.Read` is not looked at). -/
def randRead (strSize : Nat) (entropy : List Byte) : List Byte :=
  (List.range strSize).map (fun k => entropy.getD k 0)

/-- The loop `for k, v := range bytes { bytes[k] = dictionary[v%byte(len(dictionary))] }`
(lines 143-145): `byte(len(dictionary))` is the length modulo 256, a zero
divisor panics, and so does an index past the dictionary. -/
def randStrLoop (dictionary : GoString) : List Byte → Outcome (List Byte)
  | [] => .ok []
  | v :: rest =>
    if dictionary.length % 256 = 0 then .panic .divideByZero
    else
      match dictionary.get? (v.val % (dictionary.length % 256)) with
      | none => .panic .indexRange
      | some c => (randStrLoop dictionary rest).bind (fun out => .ok (c :: out))

/-- Go `randStr`, given the bytes the entropy source delivers. -/
def randStr (strSize : Int) (randType : GoString) (entropy : List Byte) : Outcome GoString :=
  if strSize < 0 then .panic .makeSliceLen
  else randStrLoop (dictionaryOf randType) (randRead strSize.toNat entropy)

/-! ## `createMessageWithAttachment` (main.go, lines 149-194) -/

/-- The byte sequence `messageBody` of lines 168-186, given the boundary, the
sniffed MIME type and the chunked base64 text of the file. -/
def attachmentMessageBody (boundary fileMIMEType chunks from_ to_ subject content
    fileName : GoString) : List Byte :=
  str "Content-Type: multipart/mixed; boundary=" ++ boundary ++ str " \n" ++
    str "MIME-Version: 1.0\n" ++
    str "to: " ++ to_ ++ str "\n" ++
    str "from: " ++ from_ ++ str "\n" ++
    str "subject: " ++ subject ++ str "\n\n" ++
    str "--" ++ boundary ++ str "\n" ++
    str "Content-Type: text/plain; charset=" ++ str "\"" ++ str "UTF-8" ++ str "\"" ++ str "\n" ++
    str "MIME-Version: 1.0\n" ++
    str "Content-Transfer-Encoding: 7bit\n\n" ++
    content ++ str "\n\n" ++
    str "--" ++ boundary ++ str "\n" ++
    str "Content-Type: " ++ fileMIMEType ++ str "; name=" ++ str "\"" ++ fileName ++ str "\"" ++
      str " \n" ++
    str "MIME-Version: 1.0\n" ++
    str "Content-Transfer-Encoding: base64\n" ++
    str "Content-Disposition: attachment; filename=" ++ str "\"" ++ fileName ++ str "\"" ++
      str " \n\n" ++
    chunks ++
    str "--" ++ boundary ++ str "--"

/-- Go `createMessageWithAttachment`. `readFile` is `ioutil.ReadFile` (`none`
when it reports an error, which ends the process through `log.Fatalf`),
`DetectContentType` is `http.DetectContentType`, and `entropy` is what
`crypto/rand` delivers to `randStr`. In the source the operands of the string
concatenation are evaluated left to right, so `chunkSplit` runs after `randStr`. -/
def createMessageWithAttachment (readFile : GoString → Option (List Byte))
    (DetectContentType : List Byte → GoString) (entropy : List Byte)
    (from_ to_ subject content fileDir fileName : GoString) : Outcome Message :=
  match readFile (fileDir ++ fileName) with
  | none => .fatal
  | some fileBytes =>
    let fileMIMEType := DetectContentType fileBytes
    let fileData := StdEncoding.EncodeToString fileBytes
    (randStr 32 (str "alphanum") entropy).bind fun boundary =>
    (chunkSplit fileData 76 (str "\n")).bind fun chunks =>
    .ok ⟨URLEncoding.EncodeToString
      (attachmentMessageBody boundary fileMIMEType chunks from_ to_ subject content fileName)⟩

/-! ## Notions the properties are stated with

These definitions are not part of the program: they name what the properties
speak of (the byte values behind a character, the lines of a text, the parts of
a multipart message as the design describes them). -/

/-- The number of byte values `v` in `0..255` that the loop of `randStr` maps to
`c`, that is, with `dictionary[v%byte(len(dictionary))] = c`. -/
def hits (dictionary : GoString) (c : Byte) : Nat :=
  (List.range 256).countP (fun v => dictionary.get? (v % (dictionary.length % 256)) = some c)

/-- The lines a rune sequence is cut into at a given width: line `i` holds the
runes from position `i * limit` on, `limit` of them or as many as are left;
there are `⌈n / limit⌉` lines, written `(n + limit - 1) / limit`. -/
def chunkLines (limit : Nat) (cs : List Rune) : List (List Rune) :=
  (List.range ((cs.length + limit - 1) / limit)).map (fun i => (cs.drop (i * limit)).take limit)

/-- The text of a list of lines, each immediately followed by the terminator. -/
def joinLines (end_ : GoString) (lines : List (List Rune)) : GoString :=
  (lines.map (fun l => stringOfRunes l ++ end_)).flatten

/-- The lines of a text: the pieces between line feeds (a text that ends in a
line feed has an empty last line). -/
def splitLines : GoString → List GoString
  | [] => [[]]
  | c :: cs =>
    if c = 10 then [] :: splitLines cs
    else
      match splitLines cs with
      | l :: ls => (c :: l) :: ls
      | [] => [[c]]

/-- The number of lines of a message that are the delimiter line
`"--" + boundary`, the line that opens a part of a multipart message. -/
def delimiterLines (boundary msg : GoString) : Nat :=
  (splitLines msg).count (str "--" ++ boundary)

/-- The top-level header block of an attachment message (step 3 of the
encoder): content type with the boundary, MIME version, `to:`, `from:`,
`subject:`, blank line. -/
def topHeaders (boundary from_ to_ subject : GoString) : GoString :=
  str "Content-Type: multipart/mixed; boundary=" ++ boundary ++ str " \n" ++
    str "MIME-Version: 1.0\n" ++
    str "to: " ++ to_ ++ str "\n" ++
    str "from: " ++ from_ ++ str "\n" ++
    str "subject: " ++ subject ++ str "\n\n"

/-- The delimiter line that opens a part: `"--" + boundary` and a line feed. -/
def delimiterLine (boundary : GoString) : GoString := str "--" ++ boundary ++ str "\n"

/-- The closing delimiter `"--" + boundary + "--"`. -/
def closingDelimiter (boundary : GoString) : GoString := str "--" ++ boundary ++ str "--"

/-- The text part (step 4): its three header lines, a blank line, the content,
a blank line. -/
def textPart (content : GoString) : GoString :=
  str "Content-Type: text/plain; charset=" ++ str "\"" ++ str "UTF-8" ++ str "\"" ++ str "\n" ++
    str "MIME-Version: 1.0\n" ++
    str "Content-Transfer-Encoding: 7bit\n\n" ++
    content ++ str "\n\n"

/-- The attachment part (step 5): its four header lines, which carry the MIME
type and, twice, the file name, a blank line, and the payload. -/
def attachmentPart (fileMIMEType fileName payload : GoString) : GoString :=
  str "Content-Type: " ++ fileMIMEType ++ str "; name=" ++ str "\"" ++ fileName ++ str "\"" ++
      str " \n" ++
    str "MIME-Version: 1.0\n" ++
    str "Content-Transfer-Encoding: base64\n" ++
    str "Content-Disposition: attachment; filename=" ++ str "\"" ++ fileName ++ str "\"" ++
      str " \n\n" ++
    payload

theorem StdEncoding_valid : StdEncoding.Valid := by decide
theorem URLEncoding_valid : URLEncoding.Valid := by decide

theorem Encoding.decodeMap_sym {enc : Encoding} (h : enc.Valid) (i : Nat) :
    enc.decodeMap (enc.sym i) = some (i % 64) := by
  have := h.1 ⟨i % 64, Nat.mod_lt _ (by decide)⟩
  simpa [Encoding.sym] using this

theorem Encoding.sym_ne_pad {enc : Encoding} (h : enc.Valid) (i : Nat) :
    enc.sym i ≠ enc.padChar := by
  have := h.2.1 ⟨i % 64, Nat.mod_lt _ (by decide)⟩
  simpa [Encoding.sym] using this

theorem Encoding.sym_mem {enc : Encoding} (h : enc.Valid) (i : Nat) :
    enc.sym i ∈ enc.encode := by
  have := h.2.2 ⟨i % 64, Nat.mod_lt _ (by decide)⟩
  simpa [Encoding.sym] using this

theorem byte_ofNat_eq (b : Byte) (n : Nat) (h : n % 256 = b.val) : (Fin.ofNat n : Byte) = b := by
  apply Fin.ext
  simpa [Fin.ofNat] using h

/-- Decoding undoes encoding, for every byte sequence. -/
theorem Encoding.decode_encode {enc : Encoding} (h : enc.Valid) (bs : List Byte) :
    enc.DecodeString (enc.EncodeToString bs) = some bs := by
  induction bs using Encoding.EncodeToString.induct enc with
  | case1 b0 b1 b2 rest ih =>
    have h0 := b0.isLt
    have h1 := b1.isLt
    have h2 := b2.isLt
    simp only [Encoding.EncodeToString, Encoding.DecodeString, Encoding.sym_ne_pad h,
      if_false, Encoding.decodeMap_sym h, ih]
    simp only [Option.some.injEq, List.cons.injEq, and_true]
    refine ⟨byte_ofNat_eq _ _ ?_, byte_ofNat_eq _ _ ?_, byte_ofNat_eq _ _ ?_⟩ <;> omega
  | case2 b0 b1 =>
    have h0 := b0.isLt
    have h1 := b1.isLt
    simp only [Encoding.EncodeToString, Encoding.DecodeString, Encoding.sym_ne_pad h,
      if_false, if_true, Encoding.decodeMap_sym h, ne_eq, not_true_eq_false]
    simp only [Option.some.injEq, List.cons.injEq, and_true]
    refine ⟨byte_ofNat_eq _ _ ?_, byte_ofNat_eq _ _ ?_⟩ <;> omega
  | case3 b0 =>
    have h0 := b0.isLt
    simp only [Encoding.EncodeToString, Encoding.DecodeString, Encoding.sym_ne_pad h,
      if_false, if_true, Encoding.decodeMap_sym h, ne_eq, not_true_eq_false]
    simp only [Option.some.injEq, List.cons.injEq, and_true]
    exact byte_ofNat_eq _ _ (by omega)
  | case4 => rfl

/-- Every character of encoded text is an alphabet character or the padding. -/
theorem Encoding.mem_encode {enc : Encoding} (h : enc.Valid) (bs : List Byte) :
    ∀ c ∈ enc.EncodeToString bs, c ∈ enc.encode ∨ c = enc.padChar := by
  induction bs using Encoding.EncodeToString.induct enc with
  | case1 b0 b1 b2 rest ih =>
    intro c hc
    simp only [Encoding.EncodeToString, List.mem_cons] at hc
    rcases hc with hc | hc | hc | hc | hc
    · exact Or.inl (hc ▸ Encoding.sym_mem h _)
    · exact Or.inl (hc ▸ Encoding.sym_mem h _)
    · exact Or.inl (hc ▸ Encoding.sym_mem h _)
    · exact Or.inl (hc ▸ Encoding.sym_mem h _)
    · exact ih c hc
  | case2 b0 b1 =>
    intro c hc
    simp only [Encoding.EncodeToString, List.mem_cons, List.not_mem_nil, or_false] at hc
    rcases hc with hc | hc | hc | hc
    · exact Or.inl (hc ▸ Encoding.sym_mem h _)
    · exact Or.inl (hc ▸ Encoding.sym_mem h _)
    · exact Or.inl (hc ▸ Encoding.sym_mem h _)
    · exact Or.inr hc
  | case3 b0 =>
    intro c hc
    simp only [Encoding.EncodeToString, List.mem_cons, List.not_mem_nil, or_false] at hc
    rcases hc with hc | hc | hc | hc
    · exact Or.inl (hc ▸ Encoding.sym_mem h _)
    · exact Or.inl (hc ▸ Encoding.sym_mem h _)
    · exact Or.inr hc
    · exact Or.inr hc
  | case4 => intro c hc; cases hc

/-- The length of encoded text: four characters for every started group of
three bytes. -/
theorem Encoding.length_encode (enc : Encoding) (bs : List Byte) :
    (enc.EncodeToString bs).length = (bs.length + 2) / 3 * 4 := by
  induction bs using Encoding.EncodeToString.induct enc with
  | case1 b0 b1 b2 rest ih =>
    simp only [Encoding.EncodeToString, List.length_cons, ih]
    omega
  | case2 b0 b1 => simp [Encoding.EncodeToString]
  | case3 b0 => simp [Encoding.EncodeToString]
  | case4 => rfl

/-- C1. For every `from`, `to`, `subject` and `content`, decoding
`createMessage(from, to, subject, content).Raw` with the standard base64
alphabet yields exactly the bytes of
`"From: " + from + "\r\n" + "To: " + to + "\r\n" + "Subject: " + subject + "\r\n\r\n" + content`;
for `a@x.com`, `b@x.com`, `Hi`, `Trial!` that is
`"From: a@x.com\r\nTo: b@x.com\r\nSubject: Hi\r\n\r\nTrial!"`. -/
theorem createMessage_decodes (from_ to_ subject content : GoString) :
    StdEncoding.DecodeString (createMessage from_ to_ subject content).Raw =
        some (str "From: " ++ from_ ++ str "\r\n" ++ str "To: " ++ to_ ++ str "\r\n" ++
          str "Subject: " ++ subject ++ str "\r\n\r\n" ++ content) ∧
      StdEncoding.DecodeString
          (createMessage (str "a@x.com") (str "b@x.com") (str "Hi") (str "Trial!")).Raw =
        some (str "From: a@x.com\r\nTo: b@x.com\r\nSubject: Hi\r\n\r\nTrial!") := by
  constructor
  · exact Encoding.decode_encode StdEncoding_valid _
  · rw [createMessage, Encoding.decode_encode StdEncoding_valid]
    decide


/-! ### `randStr` -/

theorem dictionaryOf_alphanum : dictionaryOf (str "alphanum") =
    str "0123456789ABCDEFGHIJKLMNOPQRSTUVWXYZabcdefghijklmnopqrstuvwxyz" := by decide

theorem dictionaryOf_alpha : dictionaryOf (str "alpha") =
    str "ABCDEFGHIJKLMNOPQRSTUVWXYZabcdefghijklmnopqrstuvwxyz" := by decide

theorem dictionaryOf_number : dictionaryOf (str "number") = str "0123456789" := by decide

theorem dictionaryOf_other (randType : GoString) (h1 : randType ≠ str "alphanum")
    (h2 : randType ≠ str "alpha") (h3 : randType ≠ str "number") :
    dictionaryOf randType = [] := by
  simp [dictionaryOf, h1, h2, h3]

theorem length_randRead (n : Nat) (entropy : List Byte) : (randRead n entropy).length = n := by
  simp [randRead]

/-- With a dictionary of 1 to 255 characters the loop of `randStr` replaces
every byte by a dictionary character. -/
theorem randStrLoop_ok (dictionary : GoString) (h0 : 0 < dictionary.length)
    (h1 : dictionary.length < 256) (bytes : List Byte) :
    ∃ s, randStrLoop dictionary bytes = .ok s ∧ s.length = bytes.length ∧
      ∀ c ∈ s, c ∈ dictionary := by
  induction bytes with
  | nil => exact ⟨[], rfl, rfl, fun c hc => by cases hc⟩
  | cons v rest ih =>
    obtain ⟨s, hs, hlen, hmem⟩ := ih
    have hm : dictionary.length % 256 = dictionary.length := Nat.mod_eq_of_lt h1
    have hlt : v.val % dictionary.length < dictionary.length := Nat.mod_lt _ h0
    refine ⟨dictionary[v.val % dictionary.length] :: s, ?_, by simp [hlen], ?_⟩
    · simp only [randStrLoop, hm]
      rw [if_neg (by omega), List.get?_eq_getElem?, List.getElem?_eq_getElem hlt]
      simp [hs, Outcome.bind]
    · intro c hc
      rcases List.mem_cons.mp hc with hc | hc
      · exact hc ▸ List.getElem_mem _
      · exact hmem c hc
/-- C8. For every length `strSize`, each of the three alphabet kinds
(`alphanum`, `alpha`, `number`) and every sequence of bytes the entropy source
delivers, `randStr(strSize, kind)` returns a string of exactly `strSize`
characters, each a member of the selected alphabet; in particular
`randStr(32, "alphanum")` has length 32 and uses only the 62 characters `0-9`,
`A-Z`, `a-z`. -/
theorem randStr_alphabet (strSize : Nat) (randType : GoString) (entropy : List Byte)
    (hkind : randType = str "alphanum" ∨ randType = str "alpha" ∨ randType = str "number") :
    (∃ s, randStr strSize randType entropy = .ok s ∧ s.length = strSize ∧
      (∀ c ∈ s, c ∈ dictionaryOf randType) ∧
      (randType = str "alphanum" → ∀ c ∈ s,
        c ∈ str "0123456789ABCDEFGHIJKLMNOPQRSTUVWXYZabcdefghijklmnopqrstuvwxyz") ∧
      (randType = str "alpha" → ∀ c ∈ s,
        c ∈ str "ABCDEFGHIJKLMNOPQRSTUVWXYZabcdefghijklmnopqrstuvwxyz") ∧
      (randType = str "number" → ∀ c ∈ s, c ∈ str "0123456789")) ∧
    (∃ s, randStr 32 (str "alphanum") entropy = .ok s ∧ s.length = 32 ∧
      (str "0123456789ABCDEFGHIJKLMNOPQRSTUVWXYZabcdefghijklmnopqrstuvwxyz").length = 62 ∧
      ∀ c ∈ s, c ∈ str "0123456789ABCDEFGHIJKLMNOPQRSTUVWXYZabcdefghijklmnopqrstuvwxyz") := by
  have key : ∀ (n : Nat) (rt : GoString),
      (rt = str "alphanum" ∨ rt = str "alpha" ∨ rt = str "number") →
      ∃ s, randStr n rt entropy = .ok s ∧ s.length = n ∧ ∀ c ∈ s, c ∈ dictionaryOf rt := by
    intro n rt hrt
    have hd : 0 < (dictionaryOf rt).length ∧ (dictionaryOf rt).length < 256 := by
      rcases hrt with h | h | h <;> subst h <;> decide
    obtain ⟨s, hs, hlen, hmem⟩ := randStrLoop_ok (dictionaryOf rt) hd.1 hd.2 (randRead n entropy)
    refine ⟨s, ?_, by rw [hlen, length_randRead], hmem⟩
    simp only [randStr]
    rw [if_neg (by omega)]
    simpa using hs
  constructor
  · obtain ⟨s, hs, hlen, hmem⟩ := key strSize randType hkind
    refine ⟨s, hs, hlen, hmem, ?_, ?_, ?_⟩
    · intro h c hc
      have := hmem c hc
      rwa [h, dictionaryOf_alphanum] at this
    · intro h c hc
      have := hmem c hc
      rwa [h, dictionaryOf_alpha] at this
    · intro h c hc
      have := hmem c hc
      rwa [h, dictionaryOf_number] at this
  · obtain ⟨s, hs, hlen, hmem⟩ := key 32 (str "alphanum") (Or.inl rfl)
    refine ⟨s, hs, hlen, by decide, ?_⟩
    intro c hc
    have := hmem c hc
    rwa [dictionaryOf_alphanum] at this

/-- An instance: `randStr(5, "number")` with three entropy bytes delivered. -/
theorem randStr_alphabet_witness :
    ∃ s, randStr 5 (str "number") [200, 17, 3] = .ok s ∧ s.length = 5 ∧
      ∀ c ∈ s, c ∈ str "0123456789" := by
  obtain ⟨⟨s, hs, hlen, -, -, -, hnum⟩, -⟩ :=
    randStr_alphabet 5 (str "number") [200, 17, 3] (Or.inr (Or.inr rfl))
  exact ⟨s, hs, hlen, hnum rfl⟩

/-- C9. For every `randType` other than `alphanum`, `alpha` and `number` and
every positive length, `randStr(length, randType)` fails: the modulo by the
length of the empty dictionary is a division by zero, and no string, empty or
otherwise, is returned. -/
theorem randStr_unknown_kind (strSize : Int) (randType : GoString) (entropy : List Byte)
    (h1 : randType ≠ str "alphanum") (h2 : randType ≠ str "alpha")
    (h3 : randType ≠ str "number") (hpos : 0 < strSize) :
    randStr strSize randType entropy = .panic .divideByZero ∧
      ∀ s, randStr strSize randType entropy ≠ .ok s := by
  have h : randStr strSize randType entropy = .panic .divideByZero := by
    obtain ⟨n, rfl⟩ : ∃ n : Nat, strSize = ((n + 1 : Nat) : Int) :=
      ⟨strSize.toNat - 1, by omega⟩
    simp only [randStr, dictionaryOf_other randType h1 h2 h3]
    rw [if_neg (by omega), Int.toNat_ofNat, randRead, List.range_succ_eq_map]
    simp [randStrLoop]
  exact ⟨h, fun s hs => by rw [h] at hs; cases hs⟩

/-- An instance: `randStr(32, "hex")`. -/
theorem randStr_unknown_kind_witness :
    randStr 32 (str "hex") [1, 2, 3] = .panic .divideByZero ∧
      ∀ s, randStr 32 (str "hex") [1, 2, 3] ≠ .ok s :=
  randStr_unknown_kind 32 (str "hex") [1, 2, 3] (by decide) (by decide) (by decide) (by decide)
/-- For a dictionary without repeated characters, the byte values mapped to its
`i`-th character are those congruent to `i` modulo its length. -/
theorem hits_eq_countP (dictionary : GoString) (hnd : dictionary.Nodup)
    (h1 : dictionary.length < 256) (i : Nat) (hi : i < dictionary.length) :
    hits dictionary dictionary[i] =
      (List.range 256).countP (fun v => v % dictionary.length = i) := by
  have hm : dictionary.length % 256 = dictionary.length := Nat.mod_eq_of_lt h1
  unfold hits
  rw [hm]
  apply List.countP_congr
  intro v _
  have hlt : v % dictionary.length < dictionary.length := Nat.mod_lt _ (by omega)
  simp only [List.get?_eq_getElem?, List.getElem?_eq_getElem hlt, Option.some.injEq,
    decide_eq_true_eq]
  exact hnd.getElem_inj_iff

/-- The three dictionaries have no repeated character, and the residues modulo
their lengths split the 256 byte values as evenly as 256 allows. -/
theorem dictionaryOf_counts (randType : GoString)
    (hkind : randType = str "alphanum" ∨ randType = str "alpha" ∨ randType = str "number") :
    (dictionaryOf randType).Nodup ∧ (dictionaryOf randType).length < 256 ∧
      ∀ i : Fin (dictionaryOf randType).length,
        (List.range 256).countP (fun v => v % (dictionaryOf randType).length = i.val) =
          256 / (dictionaryOf randType).length +
            (if i.val < 256 % (dictionaryOf randType).length then 1 else 0) := by
  rcases hkind with h | h | h <;> subst h <;> decide

/-- C10, as the code has it. For each of the three alphabet kinds and every
character `c` of the alphabet, the number of byte values `v` in `0..255` with
`dictionary[v mod len(dictionary)] = c` is `⌊256 / len⌋`, plus one when `c` is
among the first `256 mod len` characters of the alphabet: two characters are
hit by numbers of byte values that differ by at most one (5 or 4 for
`alphanum` and `alpha`, 26 or 25 for `number`), not always by the same number. -/
theorem randStr_hits (randType : GoString)
    (hkind : randType = str "alphanum" ∨ randType = str "alpha" ∨ randType = str "number")
    (c : Byte) (hc : c ∈ dictionaryOf randType) :
    hits (dictionaryOf randType) c =
      256 / (dictionaryOf randType).length +
        (if (dictionaryOf randType).indexOf c < 256 % (dictionaryOf randType).length
          then 1 else 0) := by
  have hi : (dictionaryOf randType).indexOf c < (dictionaryOf randType).length :=
    List.indexOf_lt_length.mpr hc
  have hget : (dictionaryOf randType)[(dictionaryOf randType).indexOf c] = c :=
    List.getElem_indexOf hi
  have hnd := dictionaryOf_counts randType hkind
  have := hits_eq_countP _ hnd.1 hnd.2.1 _ hi
  rw [hget] at this
  rw [this]
  exact hnd.2.2 ⟨_, hi⟩

/-- An instance: the character `7` of `number`: 25 byte values map to it. -/
theorem randStr_hits_witness : hits (dictionaryOf (str "number")) 55 = 25 := by
  have h := randStr_hits (str "number") (Or.inr (Or.inr rfl)) 55 (by decide)
  rw [dictionaryOf_number] at h
  exact h

/-- C10 fails for `alphanum`: `0` is the image of five byte values (0, 62, 124,
186, 248) and `z` of four (61, 123, 185, 247). -/
theorem randStr_hits_not_uniform :
    (48 : Byte) ∈ dictionaryOf (str "alphanum") ∧ (122 : Byte) ∈ dictionaryOf (str "alphanum") ∧
      hits (dictionaryOf (str "alphanum")) 48 = 5 ∧
      hits (dictionaryOf (str "alphanum")) 122 = 4 := by
  decide

/-! ### `chunkSplit` -/

theorem chunkLines_nil (limit : Nat) (h : 1 ≤ limit) : chunkLines limit [] = [] := by
  have : (limit - 1) / limit = 0 := Nat.div_eq_of_lt (by omega)
  simp [chunkLines, this]

theorem chunkLines_cons (limit : Nat) (h : 1 ≤ limit) (cs : List Rune) (hcs : 1 ≤ cs.length) :
    chunkLines limit cs = cs.take limit :: chunkLines limit (cs.drop limit) := by
  have hk : (cs.length + limit - 1) / limit =
      ((cs.drop limit).length + limit - 1) / limit + 1 := by
    rw [List.length_drop]
    by_cases hle : limit ≤ cs.length
    · have : cs.length + limit - 1 = (cs.length - limit + limit - 1) + limit := by omega
      rw [this, Nat.add_div_right _ (by omega)]
    · have h1 : cs.length - limit + limit - 1 = limit - 1 := by omega
      have h2 : cs.length + limit - 1 = (cs.length - 1) + limit := by omega
      rw [h1, h2, Nat.add_div_right _ (by omega), Nat.div_eq_of_lt (by omega),
        Nat.div_eq_of_lt (by omega)]
  unfold chunkLines
  rw [hk, List.range_succ_eq_map, List.map_cons, List.map_map]
  simp only [Nat.zero_mul, List.drop_zero, List.cons.injEq, true_and]
  apply List.map_congr_left
  intro i _
  simp only [Function.comp, Nat.succ_eq_add_one, List.drop_drop]
  congr 2
  rw [Nat.add_mul]; omega

theorem joinLines_cons (end_ : GoString) (l : List Rune) (ls : List (List Rune)) :
    joinLines end_ (l :: ls) = stringOfRunes l ++ end_ ++ joinLines end_ ls := by
  simp [joinLines]

theorem chunkSplitLoop_nil (end_ : GoString) (fuel : Nat) (limit : Int) (result : GoString) :
    chunkSplitLoop end_ (fuel + 1) [] limit result = .ok result := by
  simp [chunkSplitLoop]

/-- With a positive width, clamped to the length of what is left, the loop ends
within one step per rune and appends the lines of `chunkLines`. -/
theorem chunkSplitLoop_ok (end_ : GoString) (limit : Nat) (h : 1 ≤ limit) :
    ∀ (fuel : Nat) (cs : List Rune) (result : GoString), cs.length < fuel →
      chunkSplitLoop end_ fuel cs ((min limit cs.length : Nat) : Int) result =
        .ok (result ++ joinLines end_ (chunkLines limit cs)) := by
  intro fuel
  induction fuel with
  | zero => intro cs result hf; omega
  | succ fuel ih =>
    intro cs result hf
    by_cases hcs : 1 ≤ cs.length
    · have hlen : (cs.drop limit).length < fuel := by rw [List.length_drop]; omega
      have htake : cs.take (min limit cs.length) = cs.take limit := by
        by_cases hle : limit ≤ cs.length
        · rw [Nat.min_eq_left hle]
        · rw [Nat.min_eq_right (by omega), List.take_of_length_le (le_refl _),
            List.take_of_length_le (by omega)]
      have hdrop : cs.drop (min limit cs.length) = cs.drop limit := by
        by_cases hle : limit ≤ cs.length
        · rw [Nat.min_eq_left hle]
        · rw [Nat.min_eq_right (by omega), List.drop_of_length_le (le_refl _),
            List.drop_of_length_le (by omega)]
      have hlim : (if ((cs.drop limit).length : Int) < ((min limit cs.length : Nat) : Int)
          then ((cs.drop limit).length : Int) else ((min limit cs.length : Nat) : Int)) =
          ((min limit (cs.drop limit).length : Nat) : Int) := by
        rw [List.length_drop]
        split <;> omega
      rw [chunkSplitLoop]
      simp only [ge_iff_le, hcs, if_true, Int.toNat_ofNat, htake, hdrop]
      rw [if_neg (by omega), hlim, ih _ _ hlen, chunkLines_cons limit h cs hcs, joinLines_cons]
      simp [List.append_assoc]
    · have : cs = [] := List.eq_nil_of_length_eq_zero (by omega)
      subst this
      rw [chunkSplitLoop_nil, chunkLines_nil limit h]
      simp [joinLines]
/-- An iteration over a non-empty slice panics when the width is negative or
exceeds the length of the slice. -/
theorem chunkSplitLoop_panic (end_ : GoString) (fuel : Nat) (cs : List Rune) (limit : Int)
    (result : GoString) (hcs : 1 ≤ cs.length)
    (hl : limit < 0 ∨ (cs.length : Int) < limit) :
    chunkSplitLoop end_ (fuel + 1) cs limit result = .panic .sliceBounds := by
  rw [chunkSplitLoop]
  simp only [ge_iff_le, hcs, if_true, hl]

/-- With width 0 an iteration over a non-empty slice leaves the slice and the
width as they are, so the loop is still running after any number of steps. -/
theorem chunkSplitLoop_zero (end_ : GoString) (cs : List Rune) (hcs : 1 ≤ cs.length) :
    ∀ (fuel : Nat) (result : GoString), chunkSplitLoop end_ fuel cs 0 result = .outOfFuel := by
  intro fuel
  induction fuel with
  | zero => intro result; rfl
  | succ fuel ih =>
    intro result
    rw [chunkSplitLoop]
    have h2 : ¬ ((cs.length : Int) < 0) := by omega
    simp only [ge_iff_le, hcs, if_true, lt_irrefl, h2, or_self, if_false, Int.toNat_zero,
      List.drop_zero, List.take_zero]
    exact ih _

theorem rangeRunes_nil (fuel : Nat) : rangeRunes fuel [] = [] := by
  cases fuel <;> simp [rangeRunes]

theorem length_runesOf_pos (body : GoString) (h : body ≠ []) : 1 ≤ (runesOf body).length := by
  cases body with
  | nil => exact absurd rfl h
  | cons b rest => simp [runesOf, rangeRunes]

theorem rangeRunes_ascii (s : GoString) (h : ∀ b ∈ s, b.val < 0x80) :
    ∀ fuel, s.length ≤ fuel → rangeRunes fuel s = s.map (fun b => b.val) := by
  induction s with
  | nil => intro fuel _; exact rangeRunes_nil fuel
  | cons b rest ih =>
    intro fuel hf
    obtain ⟨fuel, rfl⟩ : ∃ k, fuel = k + 1 := ⟨fuel - 1, by simp at hf; omega⟩
    have hb : b.val < 0x80 := h b (List.mem_cons_self _ _)
    have hd : decodeRune (b :: rest) = (b.val, 1) := by simp [decodeRune, hb]
    rw [rangeRunes, if_neg (by simp), hd]
    simp only [List.drop_succ_cons, List.drop_zero, List.map_cons, List.cons.injEq, true_and]
    exact ih (fun c hc => h c (List.mem_cons_of_mem _ hc)) fuel (by simpa using hf)

/-- The runes of ASCII text are its bytes. -/
theorem runesOf_ascii (s : GoString) (h : ∀ b ∈ s, b.val < 0x80) :
    runesOf s = s.map (fun b => b.val) :=
  rangeRunes_ascii s h _ (le_refl _)

/-- ASCII text survives the passage through runes unchanged. -/
theorem stringOfRunes_ascii (s : GoString) (h : ∀ b ∈ s, b.val < 0x80) :
    stringOfRunes (s.map (fun b => b.val)) = s := by
  induction s with
  | nil => rfl
  | cons b rest ih =>
    have hb : b.val < 0x80 := h b (List.mem_cons_self _ _)
    have hr := ih (fun c hc => h c (List.mem_cons_of_mem _ hc))
    simp only [stringOfRunes] at hr ⊢
    rw [List.map_cons, List.flatMap_cons, hr]
    have : encodeRune b.val = [b] := by
      simp only [encodeRune]
      rw [if_pos (show b.val ≤ 0x7F by omega)]
      simp [Fin.ofNat, Nat.mod_eq_of_lt b.isLt]
    rw [this]; rfl

theorem stringOfRunes_append (a b : List Rune) :
    stringOfRunes (a ++ b) = stringOfRunes a ++ stringOfRunes b := by
  simp [stringOfRunes]

/-- The lines of `chunkLines`, put together again, are the rune sequence. -/
theorem flatten_chunkLines (limit : Nat) (h : 1 ≤ limit) :
    ∀ (n : Nat) (cs : List Rune), cs.length ≤ n → (chunkLines limit cs).flatten = cs := by
  intro n
  induction n with
  | zero =>
    intro cs hn
    have : cs = [] := List.eq_nil_of_length_eq_zero (by omega)
    subst this
    rw [chunkLines_nil limit h]; rfl
  | succ n ih =>
    intro cs hn
    by_cases hcs : 1 ≤ cs.length
    · rw [chunkLines_cons limit h cs hcs, List.flatten_cons,
        ih (cs.drop limit) (by rw [List.length_drop]; omega), List.take_append_drop]
    · have : cs = [] := List.eq_nil_of_length_eq_zero (by omega)
      subst this
      rw [chunkLines_nil limit h]; rfl

theorem flatten_map_stringOfRunes (ls : List (List Rune)) :
    (ls.map stringOfRunes).flatten = stringOfRunes ls.flatten := by
  induction ls with
  | nil => rfl
  | cons l ls ih => rw [List.map_cons, List.flatten_cons, List.flatten_cons, ih,
      stringOfRunes_append]

/-- The step budget of `chunkSplit` is representative: with any larger budget
the loop ends in the same way, or is still running as well. -/
theorem chunkSplitLoop_fuel (end_ : GoString) (cs : List Rune) (limit : Int)
    (result : GoString) (fuel : Nat) (hf : cs.length < fuel) :
    chunkSplitLoop end_ fuel cs limit result =
      chunkSplitLoop end_ (cs.length + 1) cs limit result := by
  obtain ⟨fuel, rfl⟩ : ∃ k, fuel = k + 1 := ⟨fuel - 1, by omega⟩
  by_cases hcs : 1 ≤ cs.length
  · by_cases hbad : limit < 0 ∨ (cs.length : Int) < limit
    · rw [chunkSplitLoop_panic end_ fuel cs limit result hcs hbad,
        chunkSplitLoop_panic end_ cs.length cs limit result hcs hbad]
    · by_cases h0 : limit = 0
      · subst h0
        rw [chunkSplitLoop_zero end_ cs hcs, chunkSplitLoop_zero end_ cs hcs]
      · obtain ⟨L, rfl⟩ : ∃ L : Nat, limit = (L : Int) := ⟨limit.toNat, by omega⟩
        have hmin : min L cs.length = L := Nat.min_eq_left (by omega)
        have e1 := chunkSplitLoop_ok end_ L (by omega) (fuel + 1) cs result hf
        have e2 := chunkSplitLoop_ok end_ L (by omega) (cs.length + 1) cs result
          (Nat.lt_succ_self _)
        rw [hmin] at e1 e2
        rw [e1, e2]
  · have : cs = [] := List.eq_nil_of_length_eq_zero (by omega)
    subst this
    rw [chunkSplitLoop_nil, List.length_nil, chunkSplitLoop_nil]

/-- With the limit equal to the number of characters of a non-empty body the
loop runs once and `chunkSplit` returns the body followed by `end`. -/
theorem chunkSplit_limit_eq_length (body end_ : GoString) (hne : body ≠ []) :
    chunkSplit body ((runesOf body).length : Int) end_ =
      .ok (stringOfRunes (runesOf body) ++ end_) := by
  have hpos := length_runesOf_pos body hne
  have h := chunkSplitLoop_ok end_ (runesOf body).length hpos ((runesOf body).length + 1)
    (runesOf body) [] (Nat.lt_succ_self _)
  rw [Nat.min_self, chunkLines_cons _ hpos _ hpos, List.drop_length, chunkLines_nil _ hpos,
    List.take_length] at h
  rw [chunkSplit, h]
  simp [joinLines]

/-- C6, where the code departs from it. For every non-empty body, every line
terminator and every limit above the number of characters of the body,
`chunkSplit` does not return `body + end`: its first iteration slices
`charSlice[:limit]` and `charSlice[limit:]` past the end of the slice and
panics, with any step budget. -/
theorem chunkSplit_limit_above_length (body end_ : GoString) (limit : Int) (hne : body ≠ [])
    (hgt : ((runesOf body).length : Int) < limit) :
    chunkSplit body limit end_ = .panic .sliceBounds ∧
      (∀ fuel, chunkSplitLoop end_ (fuel + 1) (runesOf body) limit [] = .panic .sliceBounds) ∧
      chunkSplit body limit end_ ≠ .ok (body ++ end_) := by
  have h : ∀ fuel, chunkSplitLoop end_ (fuel + 1) (runesOf body) limit [] =
      .panic .sliceBounds :=
    fun fuel => chunkSplitLoop_panic end_ fuel _ limit [] (length_runesOf_pos body hne)
      (Or.inr hgt)
  refine ⟨h _, h, ?_⟩
  rw [chunkSplit, h]
  exact fun hc => by cases hc

/-- An instance: `chunkSplit("abc", 76, "\n")`: a panic, not `"abc\n"`. -/
theorem chunkSplit_limit_above_length_witness :
    chunkSplit (str "abc") 76 (str "\n") = .panic .sliceBounds ∧
      chunkSplit (str "abc") 76 (str "\n") ≠ .ok (str "abc\n") := by
  obtain ⟨h1, -, h3⟩ :=
    chunkSplit_limit_above_length (str "abc") (str "\n") 76 (by decide) (by decide)
  exact ⟨h1, h3⟩

theorem randStr_ok (n : Nat) (randType : GoString) (entropy : List Byte)
    (hkind : randType = str "alphanum" ∨ randType = str "alpha" ∨ randType = str "number") :
    ∃ s, randStr n randType entropy = .ok s ∧ s.length = n ∧
      ∀ c ∈ s, c ∈ dictionaryOf randType := by
  have hd : 0 < (dictionaryOf randType).length ∧ (dictionaryOf randType).length < 256 := by
    rcases hkind with h | h | h <;> subst h <;> decide
  obtain ⟨s, hs, hlen, hmem⟩ :=
    randStrLoop_ok (dictionaryOf randType) hd.1 hd.2 (randRead n entropy)
  refine ⟨s, ?_, by rw [hlen, length_randRead], hmem⟩
  simp only [randStr]
  rw [if_neg (by omega)]
  simpa using hs

/-- Standard base64 text is ASCII and holds neither a line feed nor a hyphen. -/
theorem StdEncoding_text (bs : List Byte) :
    ∀ c ∈ StdEncoding.EncodeToString bs, c.val < 0x80 ∧ c ≠ 10 ∧ c ≠ 45 := by
  intro c hc
  have hall : ∀ x ∈ StdEncoding.encode, x.val < 0x80 ∧ x ≠ 10 ∧ x ≠ 45 := by decide
  rcases Encoding.mem_encode StdEncoding_valid bs c hc with h | h
  · exact hall c h
  · subst h; decide

/-- What `createMessageWithAttachment` returns once the file is read, the
boundary drawn and the file text chunked. -/
theorem createMessageWithAttachment_eq (readFile : GoString → Option (List Byte))
    (DetectContentType : List Byte → GoString) (entropy : List Byte)
    (from_ to_ subject content fileDir fileName : GoString)
    (fileBytes : List Byte) (boundary chunks : GoString)
    (h1 : readFile (fileDir ++ fileName) = some fileBytes)
    (h2 : randStr 32 (str "alphanum") entropy = .ok boundary)
    (h3 : chunkSplit (StdEncoding.EncodeToString fileBytes) 76 (str "\n") = .ok chunks) :
    createMessageWithAttachment readFile DetectContentType entropy from_ to_ subject content
        fileDir fileName =
      .ok ⟨URLEncoding.EncodeToString
        (attachmentMessageBody boundary (DetectContentType fileBytes) chunks from_ to_ subject
          content fileName)⟩ := by
  simp only [createMessageWithAttachment, h1, h2, h3, Outcome.bind]

/-- Whenever `createMessageWithAttachment` returns, the file was read, the
boundary drawn, the file text chunked, and the message is the encoded body. -/
theorem createMessageWithAttachment_ok (readFile : GoString → Option (List Byte))
    (DetectContentType : List Byte → GoString) (entropy : List Byte)
    (from_ to_ subject content fileDir fileName : GoString) (m : Message)
    (h : createMessageWithAttachment readFile DetectContentType entropy from_ to_ subject
      content fileDir fileName = .ok m) :
    ∃ fileBytes boundary chunks,
      readFile (fileDir ++ fileName) = some fileBytes ∧
      randStr 32 (str "alphanum") entropy = .ok boundary ∧
      chunkSplit (StdEncoding.EncodeToString fileBytes) 76 (str "\n") = .ok chunks ∧
      m = ⟨URLEncoding.EncodeToString
        (attachmentMessageBody boundary (DetectContentType fileBytes) chunks from_ to_ subject
          content fileName)⟩ := by
  unfold createMessageWithAttachment at h
  cases h1 : readFile (fileDir ++ fileName) with
  | none => rw [h1] at h; cases h
  | some fileBytes =>
    rw [h1] at h
    simp only at h
    cases h2 : randStr 32 (str "alphanum") entropy with
    | ok boundary =>
      rw [h2] at h
      cases h3 : chunkSplit (StdEncoding.EncodeToString fileBytes) 76 (str "\n") with
      | ok chunks =>
        rw [h3] at h
        simp only [Outcome.bind, Outcome.ok.injEq] at h
        refine ⟨fileBytes, boundary, chunks, ?_, ?_, ?_, h.symm⟩ <;> first | rfl | assumption
      | panic why => rw [h3] at h; cases h
      | fatal => rw [h3] at h; cases h
      | outOfFuel => rw [h3] at h; cases h
    | panic why => rw [h2] at h; cases h
    | fatal => rw [h2] at h; cases h
    | outOfFuel => rw [h2] at h; cases h

/-- The file text has one rune per byte. -/
theorem runesOf_fileData (fileBytes : List Byte) :
    runesOf (StdEncoding.EncodeToString fileBytes) =
      (StdEncoding.EncodeToString fileBytes).map (fun b => b.val) :=
  runesOf_ascii _ (fun c hc => (StdEncoding_text fileBytes c hc).1)

theorem length_runesOf_fileData (fileBytes : List Byte) :
    (runesOf (StdEncoding.EncodeToString fileBytes)).length = (fileBytes.length + 2) / 3 * 4 := by
  rw [runesOf_fileData, List.length_map, Encoding.length_encode]

/-- C3, where the code departs from it. For every attachment of 1 to 54 bytes,
whatever the other inputs, `createMessageWithAttachment` builds no message at
all: the base64 text of the file is shorter than 76 characters, and
`chunkSplit(fileData, 76, "\n")` panics on slicing it. -/
theorem createMessageWithAttachment_short_file (readFile : GoString → Option (List Byte))
    (DetectContentType : List Byte → GoString) (entropy : List Byte)
    (from_ to_ subject content fileDir fileName : GoString) (fileBytes : List Byte)
    (hread : readFile (fileDir ++ fileName) = some fileBytes)
    (h1 : 1 ≤ fileBytes.length) (h54 : fileBytes.length ≤ 54) :
    createMessageWithAttachment readFile DetectContentType entropy from_ to_ subject content
        fileDir fileName = .panic .sliceBounds := by
  obtain ⟨boundary, hb, -, -⟩ := randStr_ok 32 (str "alphanum") entropy (Or.inl rfl)
  have hne : StdEncoding.EncodeToString fileBytes ≠ [] := by
    intro h0
    have := Encoding.length_encode StdEncoding fileBytes
    rw [h0] at this
    simp only [List.length_nil] at this
    omega
  have hlen := length_runesOf_fileData fileBytes
  have hp : chunkSplit (StdEncoding.EncodeToString fileBytes) 76 (str "\n") =
      .panic .sliceBounds :=
    chunkSplitLoop_panic _ _ _ 76 [] (length_runesOf_pos _ hne) (Or.inr (by omega))
  simp only [createMessageWithAttachment, hread]
  have hb' : randStr 32 (str "alphanum") entropy = .ok boundary := hb
  rw [hb', hp]
  rfl

/-- An instance: an attachment of the single byte `A`. -/
theorem createMessageWithAttachment_short_file_witness :
    createMessageWithAttachment (fun _ => some [65]) (fun _ => str "text/plain; charset=utf-8")
        (List.replicate 32 0) (str "a@x.com") (str "b@x.com") (str "Hi") (str "Trial!")
        (str "./public/uploads/") (str "a.txt") = .panic .sliceBounds :=
  createMessageWithAttachment_short_file _ _ _ _ _ _ _ _ _ [65] rfl (by decide) (by decide)
theorem attachmentMessageBody_parts (boundary fileMIMEType chunks from_ to_ subject content
    fileName : GoString) :
    attachmentMessageBody boundary fileMIMEType chunks from_ to_ subject content fileName =
      topHeaders boundary from_ to_ subject ++
        delimiterLine boundary ++ textPart content ++
        delimiterLine boundary ++ attachmentPart fileMIMEType fileName chunks ++
        closingDelimiter boundary := by
  simp only [attachmentMessageBody, topHeaders, delimiterLine, textPart, attachmentPart,
    closingDelimiter, List.append_assoc]

theorem splitLines_ne_nil (a : GoString) : splitLines a ≠ [] := by
  cases a with
  | nil => simp [splitLines]
  | cons c cs =>
    rw [splitLines]
    split
    · simp
    · split <;> simp

theorem splitLines_append_lf (a b : GoString) :
    splitLines (a ++ 10 :: b) = splitLines a ++ splitLines b := by
  induction a with
  | nil => simp [splitLines]
  | cons c cs ih =>
    rw [List.cons_append, splitLines, splitLines, ih]
    by_cases hc : c = 10
    · simp [hc]
    · simp only [hc, if_false]
      cases h : splitLines cs with
      | nil => exact absurd h (splitLines_ne_nil cs)
      | cons l ls => rfl

theorem splitLines_of_not_mem (a : GoString) (h : (10 : Byte) ∉ a) : splitLines a = [a] := by
  induction a with
  | nil => rfl
  | cons c cs ih =>
    have hc : c ≠ 10 := fun hc => h (hc ▸ List.mem_cons_self _ _)
    rw [splitLines, if_neg hc, ih (fun hm => h (List.mem_cons_of_mem _ hm))]

theorem mem_of_mem_splitLines (a : GoString) :
    ∀ l ∈ splitLines a, ∀ c ∈ l, c ∈ a := by
  induction a with
  | nil =>
    intro l hl c hc
    simp only [splitLines, List.mem_singleton] at hl
    subst hl; exact hc
  | cons x xs ih =>
    intro l hl c hc
    rw [splitLines] at hl
    by_cases hx : x = 10
    · simp only [hx, if_true, List.mem_cons] at hl
      rcases hl with hl | hl
      · subst hl; cases hc
      · exact List.mem_cons_of_mem _ (ih l hl c hc)
    · simp only [hx, if_false] at hl
      cases h : splitLines xs with
      | nil => exact absurd h (splitLines_ne_nil xs)
      | cons l0 ls =>
        rw [h] at hl ih
        simp only [List.mem_cons] at hl
        rcases hl with hl | hl
        · subst hl
          rcases List.mem_cons.mp hc with hc | hc
          · exact hc ▸ List.mem_cons_self _ _
          · exact List.mem_cons_of_mem _ (ih l0 (List.mem_cons_self _ _) c hc)
        · exact List.mem_cons_of_mem _ (ih l (List.mem_cons_of_mem _ hl) c hc)

theorem delimiterLines_append_lf (d a b : GoString) :
    delimiterLines d (a ++ 10 :: b) = delimiterLines d a + delimiterLines d b := by
  simp only [delimiterLines, splitLines_append_lf, List.count_append]

theorem delimiterLines_of_no_hyphen (d a : GoString) (h : (45 : Byte) ∉ a) :
    delimiterLines d a = 0 := by
  rw [delimiterLines, List.count_eq_zero]
  intro hmem
  exact h (mem_of_mem_splitLines a _ hmem 45 (List.mem_append_left _ (by decide)))

theorem delimiterLines_of_line (d a : GoString) (h : (10 : Byte) ∉ a) (hne : a ≠ str "--" ++ d) :
    delimiterLines d a = 0 := by
  rw [delimiterLines, splitLines_of_not_mem a h, List.count_eq_zero]
  simpa using fun h' => hne h'.symm

theorem delimiterLines_self (d : GoString) (h : (10 : Byte) ∉ d) :
    delimiterLines d (str "--" ++ d) = 1 := by
  have : (10 : Byte) ∉ str "--" ++ d := by
    intro hm
    rcases List.mem_append.mp hm with hm | hm
    · revert hm; decide
    · exact h hm
  rw [delimiterLines, splitLines_of_not_mem _ this]
  simp
/-- The outcome of `chunkSplit(fileData, 76, "\n")` by the size of the file:
the lines of `chunkLines` for an empty file and for one of 55 bytes or more (a
base64 text of 76 characters or more), a panic for any other. -/
theorem chunkSplit_fileData (fileBytes : List Byte) :
    ((fileBytes = [] ∨ 55 ≤ fileBytes.length) ∧
      chunkSplit (StdEncoding.EncodeToString fileBytes) 76 (str "\n") =
        .ok (joinLines (str "\n")
          (chunkLines 76 (runesOf (StdEncoding.EncodeToString fileBytes))))) ∨
    ((1 ≤ fileBytes.length ∧ fileBytes.length ≤ 54) ∧
      chunkSplit (StdEncoding.EncodeToString fileBytes) 76 (str "\n") =
        .panic .sliceBounds) := by
  have hlen := length_runesOf_fileData fileBytes
  by_cases h0 : fileBytes = []
  · subst h0
    exact Or.inl ⟨Or.inl rfl, rfl⟩
  · have hpos : 1 ≤ fileBytes.length := by
      rcases fileBytes with _ | ⟨b, bs⟩
      · exact absurd rfl h0
      · simp
    by_cases h55 : 55 ≤ fileBytes.length
    · refine Or.inl ⟨Or.inr h55, ?_⟩
      have hmin : min 76 (runesOf (StdEncoding.EncodeToString fileBytes)).length = 76 :=
        Nat.min_eq_left (by omega)
      have := chunkSplitLoop_ok (str "\n") 76 (by decide) _
        (runesOf (StdEncoding.EncodeToString fileBytes)) [] (Nat.lt_succ_self _)
      rw [hmin, List.nil_append] at this
      exact this
    · refine Or.inr ⟨⟨hpos, by omega⟩, ?_⟩
      exact chunkSplitLoop_panic _ _ _ 76 [] (by omega) (Or.inr (by omega))

theorem joinLines_lf_shape (lines : List (List Rune)) :
    joinLines (str "\n") lines = [] ∨ ∃ x, joinLines (str "\n") lines = x ++ [10] := by
  induction lines with
  | nil => exact Or.inl rfl
  | cons l ls ih =>
    right
    rw [joinLines_cons]
    rcases ih with h | ⟨x, hx⟩
    · exact ⟨stringOfRunes l, by rw [h, List.append_nil]; rfl⟩
    · exact ⟨stringOfRunes l ++ str "\n" ++ x, by rw [hx]; simp only [List.append_assoc]⟩

theorem filter_joinLines_lf (lines : List (List Rune)) :
    (joinLines (str "\n") lines).filter (fun c => c ≠ 10) =
      ((lines.map stringOfRunes).flatten).filter (fun c => c ≠ 10) := by
  induction lines with
  | nil => rfl
  | cons l ls ih =>
    rw [joinLines_cons, List.filter_append, List.filter_append, ih, List.map_cons,
      List.flatten_cons, List.filter_append]
    have : (str "\n").filter (fun c => decide (c ≠ 10)) = [] := by decide
    rw [this, List.append_nil]

/-- The payload of the attachment part, once its line feeds are removed, is the
base64 text of the file, and decodes to the bytes of the file. -/
theorem payload_roundtrip (fileBytes : List Byte) (chunks : GoString)
    (h : chunkSplit (StdEncoding.EncodeToString fileBytes) 76 (str "\n") = .ok chunks) :
    chunks.filter (fun c => c ≠ 10) = StdEncoding.EncodeToString fileBytes ∧
      StdEncoding.DecodeString (chunks.filter (fun c => c ≠ 10)) = some fileBytes := by
  have hfilter : chunks.filter (fun c => c ≠ 10) = StdEncoding.EncodeToString fileBytes := by
    rcases chunkSplit_fileData fileBytes with ⟨-, hok⟩ | ⟨-, hp⟩
    · rw [hok] at h
      injection h with h
      subst h
      rw [filter_joinLines_lf, flatten_map_stringOfRunes,
        flatten_chunkLines 76 (by decide) _ _ (le_refl _), runesOf_fileData,
        stringOfRunes_ascii _ (fun c hc => (StdEncoding_text fileBytes c hc).1)]
      apply List.filter_eq_self.mpr
      intro c hc
      simpa using (StdEncoding_text fileBytes c hc).2.1
    · rw [hp] at h; cases h
  exact ⟨hfilter, by rw [hfilter]; exact Encoding.decode_encode StdEncoding_valid _⟩

/-- The payload is empty or ends in a line feed, and holds no hyphen. -/
theorem payload_shape (fileBytes : List Byte) (chunks : GoString)
    (h : chunkSplit (StdEncoding.EncodeToString fileBytes) 76 (str "\n") = .ok chunks) :
    (chunks = [] ∨ ∃ x, chunks = x ++ [10]) ∧ (45 : Byte) ∉ chunks := by
  constructor
  · rcases chunkSplit_fileData fileBytes with ⟨-, hok⟩ | ⟨-, hp⟩
    · rw [hok] at h
      injection h with h
      subst h
      exact joinLines_lf_shape _
    · rw [hp] at h; cases h
  · intro hmem
    have h45 : (45 : Byte) ∈ chunks.filter (fun c => c ≠ 10) :=
      List.mem_filter.mpr ⟨hmem, by decide⟩
    rw [(payload_roundtrip fileBytes chunks h).1] at h45
    exact (StdEncoding_text fileBytes 45 h45).2.2 rfl
/-- The body of an attachment message, line by line. -/
theorem attachmentMessageBody_lines (boundary fileMIMEType chunks from_ to_ subject content
    fileName : GoString) :
    attachmentMessageBody boundary fileMIMEType chunks from_ to_ subject content fileName =
      (str "Content-Type: multipart/mixed; boundary=" ++ boundary ++ str " ") ++ 10 ::
      (str "MIME-Version: 1.0" ++ 10 ::
      ((str "to: " ++ to_) ++ 10 ::
      ((str "from: " ++ from_) ++ 10 ::
      ((str "subject: " ++ subject) ++ 10 ::
      ([] ++ 10 ::
      ((str "--" ++ boundary) ++ 10 ::
      ((str "Content-Type: text/plain; charset=" ++ str "\"" ++ str "UTF-8" ++ str "\"") ++ 10 ::
      (str "MIME-Version: 1.0" ++ 10 ::
      (str "Content-Transfer-Encoding: 7bit" ++ 10 ::
      ([] ++ 10 ::
      (content ++ 10 ::
      ([] ++ 10 ::
      ((str "--" ++ boundary) ++ 10 ::
      ((str "Content-Type: " ++ fileMIMEType ++ str "; name=" ++ str "\"" ++ fileName ++
          str "\"" ++ str " ") ++ 10 ::
      (str "MIME-Version: 1.0" ++ 10 ::
      (str "Content-Transfer-Encoding: base64" ++ 10 ::
      ((str "Content-Disposition: attachment; filename=" ++ str "\"" ++ fileName ++
          str "\"" ++ str " ") ++ 10 ::
      ([] ++ 10 ::
      (chunks ++ (str "--" ++ boundary ++ str "--")))))))))))))))))))) := by
  have e1 : str " \n" = str " " ++ [10] := rfl
  have e2 : str "MIME-Version: 1.0\n" = str "MIME-Version: 1.0" ++ [10] := rfl
  have e3 : str "\n" = [10] := rfl
  have e4 : str "\n\n" = [10, 10] := rfl
  have e5 : str "Content-Transfer-Encoding: 7bit\n\n" =
      str "Content-Transfer-Encoding: 7bit" ++ [10, 10] := rfl
  have e6 : str "Content-Transfer-Encoding: base64\n" =
      str "Content-Transfer-Encoding: base64" ++ [10] := rfl
  have e7 : str " \n\n" = str " " ++ [10, 10] := rfl
  simp only [attachmentMessageBody, e1, e2, e3, e4, e5, e6, e7, List.append_assoc,
    List.cons_append, List.nil_append]
theorem delimiterLines_nil (d : GoString) : delimiterLines d [] = 0 :=
  delimiterLines_of_no_hyphen d [] (by simp)

theorem delimiterLines_of_head (d a : GoString) (c : Byte) (hhead : a.head? = some c)
    (hc : c ≠ 45) (hlf : (10 : Byte) ∉ a) : delimiterLines d a = 0 := by
  apply delimiterLines_of_line d a hlf
  intro h
  rw [h] at hhead
  have h45 : (str "--" ++ d).head? = some 45 := rfl
  rw [h45] at hhead
  exact hc (Option.some.inj hhead).symm

theorem delimiterLines_closing (d : GoString) (h : (10 : Byte) ∉ d) :
    delimiterLines d (str "--" ++ d ++ str "--") = 0 := by
  apply delimiterLines_of_line
  · intro hm
    simp only [List.mem_append] at hm
    rcases hm with (hm | hm) | hm
    · revert hm; decide
    · exact h hm
    · revert hm; decide
  · intro heq
    have := congrArg List.length heq
    simp only [List.length_append] at this
    have h2 : (str "--").length = 2 := rfl
    omega

/-- The delimiter lines of an attachment message whose header fields hold no
line feed: the two that open the parts, and whatever the content brings. -/
theorem delimiterLines_body (boundary fileMIMEType chunks from_ to_ subject content
    fileName : GoString) (hb : (10 : Byte) ∉ boundary) (hto : (10 : Byte) ∉ to_)
    (hfrom : (10 : Byte) ∉ from_) (hsubject : (10 : Byte) ∉ subject)
    (hname : (10 : Byte) ∉ fileName) (hmime : (10 : Byte) ∉ fileMIMEType)
    (hshape : chunks = [] ∨ ∃ x, chunks = x ++ [10]) (hhyphen : (45 : Byte) ∉ chunks) :
    delimiterLines boundary
        (attachmentMessageBody boundary fileMIMEType chunks from_ to_ subject content fileName) =
      2 + delimiterLines boundary content := by
  have s1 : delimiterLines boundary
      (str "Content-Type: multipart/mixed; boundary=" ++ boundary ++ str " ") = 0 := by
    refine delimiterLines_of_head _ _ 67 ?_ (by decide) ?_
    · rfl
    simp only [List.mem_append, not_or]
    exact ⟨⟨by decide, hb⟩, by decide⟩
  have s2 : delimiterLines boundary (str "MIME-Version: 1.0") = 0 :=
    delimiterLines_of_head _ _ 77 rfl (by decide) (by decide)
  have s3 : delimiterLines boundary (str "to: " ++ to_) = 0 := by
    refine delimiterLines_of_head _ _ 116 ?_ (by decide) ?_
    · rfl
    simp only [List.mem_append, not_or]
    exact ⟨by decide, hto⟩
  have s4 : delimiterLines boundary (str "from: " ++ from_) = 0 := by
    refine delimiterLines_of_head _ _ 102 ?_ (by decide) ?_
    · rfl
    simp only [List.mem_append, not_or]
    exact ⟨by decide, hfrom⟩
  have s5 : delimiterLines boundary (str "subject: " ++ subject) = 0 := by
    refine delimiterLines_of_head _ _ 115 ?_ (by decide) ?_
    · rfl
    simp only [List.mem_append, not_or]
    exact ⟨by decide, hsubject⟩
  have s6 : delimiterLines boundary (str "--" ++ boundary) = 1 := delimiterLines_self _ hb
  have s7 : delimiterLines boundary
      (str "Content-Type: text/plain; charset=" ++ str "\"" ++ str "UTF-8" ++ str "\"") = 0 :=
    delimiterLines_of_head _ _ 67 rfl (by decide) (by decide)
  have s8 : delimiterLines boundary (str "Content-Transfer-Encoding: 7bit") = 0 :=
    delimiterLines_of_head _ _ 67 rfl (by decide) (by decide)
  have s9 : delimiterLines boundary
      (str "Content-Type: " ++ fileMIMEType ++ str "; name=" ++ str "\"" ++ fileName ++
        str "\"" ++ str " ") = 0 := by
    refine delimiterLines_of_head _ _ 67 ?_ (by decide) ?_
    · rfl
    simp only [List.mem_append, not_or]
    exact ⟨⟨⟨⟨⟨⟨by decide, hmime⟩, by decide⟩, by decide⟩, hname⟩, by decide⟩, by decide⟩
  have s10 : delimiterLines boundary (str "Content-Transfer-Encoding: base64") = 0 :=
    delimiterLines_of_head _ _ 67 rfl (by decide) (by decide)
  have s11 : delimiterLines boundary
      (str "Content-Disposition: attachment; filename=" ++ str "\"" ++ fileName ++
        str "\"" ++ str " ") = 0 := by
    refine delimiterLines_of_head _ _ 67 ?_ (by decide) ?_
    · rfl
    simp only [List.mem_append, not_or]
    exact ⟨⟨⟨⟨by decide, by decide⟩, hname⟩, by decide⟩, by decide⟩
  have s12 : delimiterLines boundary (chunks ++ (str "--" ++ boundary ++ str "--")) = 0 := by
    rcases hshape with h | ⟨x, hx⟩
    · rw [h, List.nil_append]
      exact delimiterLines_closing _ hb
    · have hx45 : (45 : Byte) ∉ x := fun hm => hhyphen (hx ▸ List.mem_append_left _ hm)
      rw [hx, List.append_assoc, List.singleton_append, delimiterLines_append_lf,
        delimiterLines_of_no_hyphen _ x hx45, delimiterLines_closing _ hb]
  rw [attachmentMessageBody_lines]
  simp only [delimiterLines_append_lf, s1, s2, s3, s4, s5, s6, s7, s8, s9, s10, s11, s12,
    delimiterLines_nil]
  omega
theorem boundary_no_lf (entropy : List Byte) (boundary : GoString)
    (h : randStr 32 (str "alphanum") entropy = .ok boundary) : (10 : Byte) ∉ boundary := by
  obtain ⟨s, hs, -, hmem⟩ := randStr_ok 32 (str "alphanum") entropy (Or.inl rfl)
  have hs' : randStr 32 (str "alphanum") entropy = .ok s := hs
  rw [hs'] at h
  injection h with h
  subst h
  intro h10
  have := hmem 10 h10
  revert this
  decide

/-- `createMessageWithAttachment` returns a message for an empty attachment and
for every attachment of 55 bytes or more. -/
theorem createMessageWithAttachment_returns (readFile : GoString → Option (List Byte))
    (DetectContentType : List Byte → GoString) (entropy : List Byte)
    (from_ to_ subject content fileDir fileName : GoString) (fileBytes : List Byte)
    (hread : readFile (fileDir ++ fileName) = some fileBytes)
    (hsize : fileBytes = [] ∨ 55 ≤ fileBytes.length) :
    ∃ m, createMessageWithAttachment readFile DetectContentType entropy from_ to_ subject content
      fileDir fileName = .ok m := by
  obtain ⟨boundary, hb, -, -⟩ := randStr_ok 32 (str "alphanum") entropy (Or.inl rfl)
  rcases chunkSplit_fileData fileBytes with ⟨-, hok⟩ | ⟨hsmall, -⟩
  · exact ⟨_, createMessageWithAttachment_eq readFile DetectContentType entropy from_ to_ subject
      content fileDir fileName fileBytes boundary _ hread hb hok⟩
  · rcases hsize with h | h
    · subst h; simp at hsmall
    · omega

/-- C2, as the code has it. For all inputs whose attachment is empty or has 55
bytes or more, `createMessageWithAttachment` returns a message, and decoding
its `Raw` with the URL-safe base64 alphabet yields, in this order and with
nothing else: the top-level headers, the delimiter line `"--" + boundary`, the
text/plain part carrying `content`, the delimiter line again, the attachment
part, and the closing delimiter `"--" + boundary + "--"`. The decoded message
has exactly two delimiter lines provided `to`, `from`, `subject`, `fileName` and
the sniffed MIME type hold no line feed and no line of `content` is the
delimiter line. -/
theorem createMessageWithAttachment_parts (readFile : GoString → Option (List Byte))
    (DetectContentType : List Byte → GoString) (entropy : List Byte)
    (from_ to_ subject content fileDir fileName : GoString) (fileBytes : List Byte)
    (hread : readFile (fileDir ++ fileName) = some fileBytes)
    (hsize : fileBytes = [] ∨ 55 ≤ fileBytes.length) :
    ∃ m boundary payload msg,
      createMessageWithAttachment readFile DetectContentType entropy from_ to_ subject content
        fileDir fileName = .ok m ∧
      randStr 32 (str "alphanum") entropy = .ok boundary ∧
      chunkSplit (StdEncoding.EncodeToString fileBytes) 76 (str "\n") = .ok payload ∧
      URLEncoding.DecodeString m.Raw = some msg ∧
      msg = topHeaders boundary from_ to_ subject ++
        delimiterLine boundary ++ textPart content ++
        delimiterLine boundary ++ attachmentPart (DetectContentType fileBytes) fileName payload ++
        closingDelimiter boundary ∧
      ((10 : Byte) ∉ to_ → (10 : Byte) ∉ from_ → (10 : Byte) ∉ subject →
        (10 : Byte) ∉ fileName → (10 : Byte) ∉ DetectContentType fileBytes →
        str "--" ++ boundary ∉ splitLines content → delimiterLines boundary msg = 2) := by
  obtain ⟨boundary, h2, -, -⟩ := randStr_ok 32 (str "alphanum") entropy (Or.inl rfl)
  have h2' : randStr 32 (str "alphanum") entropy = .ok boundary := h2
  obtain ⟨-, h3⟩ | ⟨hsmall, -⟩ := chunkSplit_fileData fileBytes
  · have hm := createMessageWithAttachment_eq readFile DetectContentType entropy from_ to_
      subject content fileDir fileName fileBytes boundary _ hread h2' h3
    refine ⟨_, boundary, _,
      attachmentMessageBody boundary (DetectContentType fileBytes) _ from_ to_ subject
        content fileName, hm, h2', h3, ?_,
      attachmentMessageBody_parts boundary (DetectContentType fileBytes) _ from_ to_ subject
        content fileName, ?_⟩
    · rw [Encoding.decode_encode URLEncoding_valid]
    · intro hto hfrom hsubject hname hmime hcontent
      obtain ⟨hshape, hhyphen⟩ := payload_shape fileBytes _ h3
      rw [delimiterLines_body boundary (DetectContentType fileBytes) _ from_ to_ subject
        content fileName (boundary_no_lf entropy boundary h2') hto hfrom hsubject hname hmime
        hshape hhyphen]
      have : delimiterLines boundary content = 0 := by
        rw [delimiterLines, List.count_eq_zero]
        exact hcontent
      omega
  · rcases hsize with h | h
    · subst h; simp at hsmall
    · omega

/-- An instance: an attachment of 57 bytes, all-zero entropy and the content `Trial!`. -/
theorem createMessageWithAttachment_parts_witness :
    ∃ m boundary payload msg,
      createMessageWithAttachment (fun _ => some (List.replicate 57 7))
        (fun _ => str "application/octet-stream") (List.replicate 32 0) (str "a@x.com")
        (str "b@x.com") (str "Hi") (str "Trial!") (str "./public/uploads/") (str "f.bin") =
          .ok m ∧
      randStr 32 (str "alphanum") (List.replicate 32 0) = .ok boundary ∧
      chunkSplit (StdEncoding.EncodeToString (List.replicate 57 7)) 76 (str "\n") =
        .ok payload ∧
      URLEncoding.DecodeString m.Raw = some msg ∧
      msg = topHeaders boundary (str "a@x.com") (str "b@x.com") (str "Hi") ++
        delimiterLine boundary ++ textPart (str "Trial!") ++
        delimiterLine boundary ++
        attachmentPart (str "application/octet-stream") (str "f.bin") payload ++
        closingDelimiter boundary ∧
      delimiterLines boundary msg = 2 := by
  obtain ⟨m, boundary, payload, msg, h1, h2, h3, h4, h5, h6⟩ :=
    createMessageWithAttachment_parts (fun _ => some (List.replicate 57 7))
      (fun _ => str "application/octet-stream") (List.replicate 32 0) (str "a@x.com")
      (str "b@x.com") (str "Hi") (str "Trial!") (str "./public/uploads/") (str "f.bin")
      (List.replicate 57 7) rfl (Or.inr (by decide))
  have hb : boundary = List.replicate 32 48 := by
    have : randStr 32 (str "alphanum") (List.replicate 32 0) = .ok (List.replicate 32 48) := by
      decide
    rw [this] at h2
    injection h2 with h2
    exact h2.symm
  refine ⟨m, boundary, payload, msg, h1, h2, h3, h4, h5,
    h6 (by decide) (by decide) (by decide) (by decide) (by decide) ?_⟩
  subst hb
  decide

/-- C2 fails when the content holds the delimiter line. With the entropy bytes
all zero the boundary is 32 times `0`; a content that is `"--"` followed by
that boundary gives a message that decodes to three delimiter lines, not two. -/
theorem createMessageWithAttachment_boundary_collision :
    ∃ m msg,
      createMessageWithAttachment (fun _ => some (List.replicate 57 7))
        (fun _ => str "application/octet-stream") (List.replicate 32 0) (str "a@x.com")
        (str "b@x.com") (str "Hi") (str "--00000000000000000000000000000000")
        (str "./public/uploads/") (str "f.bin") = .ok m ∧
      randStr 32 (str "alphanum") (List.replicate 32 0) =
        .ok (str "00000000000000000000000000000000") ∧
      URLEncoding.DecodeString m.Raw = some msg ∧
      delimiterLines (str "00000000000000000000000000000000") msg = 3 := by
  have hb : randStr 32 (str "alphanum") (List.replicate 32 0) =
      .ok (str "00000000000000000000000000000000") := by decide
  obtain ⟨-, hok⟩ | ⟨hsmall, -⟩ := chunkSplit_fileData (List.replicate 57 7)
  · have hm := createMessageWithAttachment_eq (fun _ => some (List.replicate 57 7))
      (fun _ => str "application/octet-stream") (List.replicate 32 0) (str "a@x.com")
      (str "b@x.com") (str "Hi") (str "--00000000000000000000000000000000")
      (str "./public/uploads/") (str "f.bin") (List.replicate 57 7) _ _ rfl hb hok
    refine ⟨_, _, hm, hb, Encoding.decode_encode URLEncoding_valid _, ?_⟩
    obtain ⟨hshape, hhyphen⟩ := payload_shape (List.replicate 57 7) _ hok
    rw [delimiterLines_body _ _ _ _ _ _ _ _ (by decide) (by decide) (by decide) (by decide)
      (by decide) (by decide) hshape hhyphen]
    decide
  · exact absurd hsmall.2 (by decide)
/-- URL-safe base64 text holds neither `+` nor `/`: every character is a
letter, a digit, `-`, `_` or the padding `=`. -/
theorem URLEncoding_text (bs : List Byte) :
    ∀ c ∈ URLEncoding.EncodeToString bs, c ∉ str "+/" ∧
      c ∈ str "ABCDEFGHIJKLMNOPQRSTUVWXYZabcdefghijklmnopqrstuvwxyz0123456789-_=" := by
  intro c hc
  have hall : ∀ x ∈ URLEncoding.encode, x ∉ str "+/" ∧
      x ∈ str "ABCDEFGHIJKLMNOPQRSTUVWXYZabcdefghijklmnopqrstuvwxyz0123456789-_=" := by decide
  rcases Encoding.mem_encode URLEncoding_valid bs c hc with h | h
  · exact hall c h
  · subst h; decide

/-- C4. For all inputs, the `Raw` string that `createMessageWithAttachment`
returns is written in the URL-safe base64 alphabet: it holds no `+` and no `/`,
every character being one of `A-Z`, `a-z`, `0-9`, `-`, `_` or the padding `=`.
Such a string is returned whenever the attachment is empty or has 55 bytes or
more. -/
theorem createMessageWithAttachment_urlsafe (readFile : GoString → Option (List Byte))
    (DetectContentType : List Byte → GoString) (entropy : List Byte)
    (from_ to_ subject content fileDir fileName : GoString) :
    (∀ fileBytes, readFile (fileDir ++ fileName) = some fileBytes →
      (fileBytes = [] ∨ 55 ≤ fileBytes.length) →
      ∃ m, createMessageWithAttachment readFile DetectContentType entropy from_ to_ subject
        content fileDir fileName = .ok m) ∧
    (∀ m, createMessageWithAttachment readFile DetectContentType entropy from_ to_ subject
        content fileDir fileName = .ok m →
      ∀ c ∈ m.Raw, c ∉ str "+/" ∧
        c ∈ str "ABCDEFGHIJKLMNOPQRSTUVWXYZabcdefghijklmnopqrstuvwxyz0123456789-_=") := by
  refine ⟨fun fileBytes hread hsize =>
    createMessageWithAttachment_returns readFile DetectContentType entropy from_ to_ subject
      content fileDir fileName fileBytes hread hsize, ?_⟩
  intro m h
  obtain ⟨fileBytes, boundary, payload, -, -, -, hm⟩ :=
    createMessageWithAttachment_ok readFile DetectContentType entropy from_ to_ subject content
      fileDir fileName m h
  have hraw : m.Raw = URLEncoding.EncodeToString
      (attachmentMessageBody boundary (DetectContentType fileBytes) payload from_ to_ subject
        content fileName) := by rw [hm]
  rw [hraw]
  exact URLEncoding_text _

/-- An instance: an attachment of 60 bytes `0xFF`. -/
theorem createMessageWithAttachment_urlsafe_witness :
    ∃ m, createMessageWithAttachment (fun _ => some (List.replicate 60 255))
        (fun _ => str "application/octet-stream") (List.replicate 32 200)
        (str "dropzone-go@gmail.com") (str "b@x.com") (str "Sent from dropzone-go")
        (str "You just uploaded this file!") (str "./public/uploads/") (str "f.bin") = .ok m ∧
      ∀ c ∈ m.Raw, c ∉ str "+/" ∧
        c ∈ str "ABCDEFGHIJKLMNOPQRSTUVWXYZabcdefghijklmnopqrstuvwxyz0123456789-_=" := by
  have h := createMessageWithAttachment_urlsafe (fun _ => some (List.replicate 60 255))
    (fun _ => str "application/octet-stream") (List.replicate 32 200)
    (str "dropzone-go@gmail.com") (str "b@x.com") (str "Sent from dropzone-go")
    (str "You just uploaded this file!") (str "./public/uploads/") (str "f.bin")
  obtain ⟨m, hm⟩ := h.1 (List.replicate 60 255) rfl (Or.inr (by decide))
  exact ⟨m, hm, h.2 m hm⟩

end Dropzone
